import Mathlib

/-!
Verification of the `wk` week-planner CLI (single Go source file `main.go`).

Strings are modelled as lists of characters (`Str`); the Go standard-library
helpers used by the program (`strings.ToLower`, `strings.TrimSpace`,
`strings.Split`, the two regular expressions, `time`'s calendar arithmetic)
are embedded as executable Lean functions over that representation.
Calendar dates are modelled as day numbers (days since 1970-01-01), with
civil-date conversions following the standard era-based algorithm; Go's
`Weekday` numbering (Sunday = 0 … Saturday = 6) and `ISOWeek`
(Thursday-of-the-week rule) are reproduced on day numbers.
-/

namespace Wk

/-- Str is the model of a Go string: its list of characters. -/
abbrev Str := List Char

/-- isDigitChar models regexp `\d`: an ASCII decimal digit. -/
def isDigitChar (c : Char) : Bool := 48 ≤ c.toNat && c.toNat ≤ 57

/-- isSpaceChar models the whitespace class `strings.TrimSpace` trims, on
the ASCII range: space, tab, newline, vertical tab, form feed, carriage
return (code 32 and codes 9–13). -/
def isSpaceChar (c : Char) : Bool := c.toNat = 32 || (9 ≤ c.toNat && c.toNat ≤ 13)

/-- toLowerChar models `strings.ToLower` on a single ASCII character
(the program only ever feeds ASCII day/date/time tokens through it). -/
def toLowerChar (c : Char) : Char :=
  if 65 ≤ c.toNat ∧ c.toNat ≤ 90 then Char.ofNat (c.toNat + 32) else c

/-- strToLower models `strings.ToLower`. -/
def strToLower (s : Str) : Str := s.map toLowerChar

/-- trimSpace models `strings.TrimSpace`: drop leading and trailing whitespace. -/
def trimSpace (s : Str) : Str :=
  ((s.dropWhile isSpaceChar).reverse.dropWhile isSpaceChar).reverse

/-- splitOnAux is the worker for `splitOnChar`; `acc` holds the (reversed)
characters of the current field. -/
def splitOnAux (sep : Char) : Str → Str → List Str
  | [], acc => [acc.reverse]
  | c :: rest, acc =>
      if c = sep then acc.reverse :: splitOnAux sep rest []
      else splitOnAux sep rest (c :: acc)

/-- splitOnChar models `strings.Split s sep` for a one-character separator:
it splits at every occurrence of `sep` (empty fields are kept). -/
def splitOnChar (sep : Char) (s : Str) : List Str := splitOnAux sep s []

/-- digitVal is the numeric value of a decimal digit character. -/
def digitVal (c : Char) : Nat := c.toNat - 48

/-- digitsToNat reads a run of decimal digit characters as a number. -/
def digitsToNat (s : Str) : Nat := s.foldl (fun acc c => 10 * acc + digitVal c) 0

/-- TimeErr models the two error messages `parseTimeRange` can produce
(`fmt.Errorf` carries the offending input, kept here as the payload). -/
inductive TimeErr where
  | invalidTimeRange (input : Str)
  | invalidTimeFormat (input : Str)
  deriving DecidableEq, Repr

/-- timeRegexMatch models the Go regexp `^\d{1,2}:\d{2}$`. -/
def timeRegexMatch : Str → Bool
  | [h1, c, m1, m2] => isDigitChar h1 && (c = ':') && isDigitChar m1 && isDigitChar m2
  | [h1, h2, c, m1, m2] =>
      isDigitChar h1 && isDigitChar h2 && (c = ':') && isDigitChar m1 && isDigitChar m2
  | _ => false

/-- padTime models the normalization step of `parseTimeRange`: a length-4
match (single-digit hour) gets a leading zero. -/
def padTime (s : Str) : Str := if s.length = 4 then '0' :: s else s

/-- parseTimeRange models the Go function `parseTimeRange`: split on every
`-`, require exactly two fields (`len(parts) != 2` fails), trim each field,
match each against `^\d{1,2}:\d{2}$`, and zero-pad single-digit hours. -/
def parseTimeRange (input : Str) : Except TimeErr (Str × Str) :=
  match splitOnChar '-' input with
  | [p0, p1] =>
      let start := trimSpace p0
      let e := trimSpace p1
      if timeRegexMatch start && timeRegexMatch e then
        .ok (padTime start, padTime e)
      else
        .error (.invalidTimeFormat input)
  | _ => .error (.invalidTimeRange input)

/-! ### Calendar model (Go `time` package semantics on day numbers) -/

/-- daysFromCivil converts a civil date to a day number with epoch
1970-01-01 = 0, by the standard era-based algorithm (the same date
arithmetic Go's `time.Date` performs). `Int.div` is C-style truncating
division, matching the reference algorithm. -/
def daysFromCivil (y m d : Int) : Int :=
  let y := if m ≤ 2 then y - 1 else y
  let era := Int.tdiv (if 0 ≤ y then y else y - 399) 400
  let yoe := y - era * 400
  let mp := if 2 < m then m - 3 else m + 9
  let doy := Int.tdiv (153 * mp + 2) 5 + d - 1
  let doe := yoe * 365 + Int.tdiv yoe 4 - Int.tdiv yoe 100 + doy
  era * 146097 + doe - 719468

/-- civilFromDays is the inverse conversion: day number to (year, month, day). -/
def civilFromDays (z : Int) : Int × Int × Int :=
  let z := z + 719468
  let era := Int.tdiv (if 0 ≤ z then z else z - 146096) 146097
  let doe := z - era * 146097
  let yoe := Int.tdiv (doe - Int.tdiv doe 1460 + Int.tdiv doe 36524 - Int.tdiv doe 146096) 365
  let y := yoe + era * 400
  let doy := doe - (365 * yoe + Int.tdiv yoe 4 - Int.tdiv yoe 100)
  let mp := Int.tdiv (5 * doy + 2) 153
  let d := doy - Int.tdiv (153 * mp + 2) 5 + 1
  let m := if mp < 10 then mp + 3 else mp - 9
  (if m ≤ 2 then y + 1 else y, m, d)

/-- goWeekday is Go's `Time.Weekday` numbering (Sunday = 0 … Saturday = 6)
for a day number; day 0 (1970-01-01) was a Thursday (= 4). `%` on `Int`
is Euclidean mod, so the result is always in 0..6. -/
def goWeekday (z : Int) : Int := (z + 4) % 7

/-- isoWeekOf models Go's `Time.ISOWeek`: move to the Thursday of the
containing Monday-based week, and return that Thursday's calendar year
together with its zero-based day-of-year divided by 7, plus one. -/
def isoWeekOf (z : Int) : Int × Int :=
  let wd := (z + 3) % 7 + 1
  let th := z + (4 - wd)
  let y := (civilFromDays th).1
  let jan1 := daysFromCivil y 1 1
  (y, Int.tdiv (th - jan1) 7 + 1)

/-! ### Week-key formatting (`fmt.Sprintf` with `%d-W%02d`) -/

/-- natToDigitsAux accumulates the decimal digits of `n` (most significant
first) in front of `acc`; the first argument is structural fuel, always
called with at least as many units as `n` has digits. -/
def natToDigitsAux : Nat → Nat → Str → Str
  | 0, _, acc => acc
  | fuel + 1, n, acc =>
      if n = 0 then acc
      else natToDigitsAux fuel (n / 10) (Char.ofNat (48 + n % 10) :: acc)

/-- natToStr renders a natural number in decimal (Go `%d`). -/
def natToStr (n : Nat) : Str := if n = 0 then ['0'] else natToDigitsAux n n []

/-- intToStr renders an integer in decimal (Go `%d`). -/
def intToStr (i : Int) : Str :=
  if i < 0 then '-' :: natToStr i.natAbs else natToStr i.toNat

/-- pad2Int renders an integer zero-padded to width two (Go `%02d`). -/
def pad2Int (i : Int) : Str :=
  if 0 ≤ i ∧ i < 10 then '0' :: natToStr i.toNat else intToStr i

/-- formatWeekKey renders `fmt.Sprintf` with format `%d-W%02d`, the week-key
format used throughout the program. -/
def formatWeekKey (y w : Int) : Str := intToStr y ++ ('-' :: 'W' :: pad2Int w)

/-! ### Day/date resolver (`parseDay`) -/

/-- GoDate models the current local date (`time.Now()`), the only part of
the clock the resolver consults (via `ISOWeek` and `Weekday`). -/
structure GoDate where
  year : Int
  month : Int
  day : Int
  deriving DecidableEq, Repr

/-- toDays is the day number of a `GoDate`. -/
def toDays (d : GoDate) : Int := daysFromCivil d.year d.month d.day

/-- weekdayName is `Weekday.String()` lowercased, as the program computes
with `strings.ToLower(t.Weekday().String())`. -/
def weekdayName (w : Int) : Str :=
  if w = 0 then ("sunday").toList
  else if w = 1 then ("monday").toList
  else if w = 2 then ("tuesday").toList
  else if w = 3 then ("wednesday").toList
  else if w = 4 then ("thursday").toList
  else if w = 5 then ("friday").toList
  else ("saturday").toList

/-- daysList is the `days` slice of `parseDay`: the seven lowercase
weekday names, Monday first. -/
def daysList : List Str :=
  [("monday").toList, ("tuesday").toList, ("wednesday").toList,
   ("thursday").toList, ("friday").toList, ("saturday").toList,
   ("sunday").toList]

/-- DayErr models `parseDay`'s two error messages, with the offending
(normalized) input as payload. -/
inductive DayErr where
  | invalidDate (input : Str)
  | invalidDay (input : Str)
  deriving DecidableEq, Repr

/-- dateShape models the Go regexp `^\d{4}-\d{2}-\d{2}$`. -/
def dateShape : Str → Bool
  | [a, b, c, d, e, f, g, h, i, j] =>
      isDigitChar a && isDigitChar b && isDigitChar c && isDigitChar d && (e = '-') &&
      isDigitChar f && isDigitChar g && (h = '-') && isDigitChar i && isDigitChar j
  | _ => false

/-- isLeapYear is Go's `isLeap`: divisible by 4 and (not by 100 or by 400). -/
def isLeapYear (y : Int) : Bool :=
  y % 4 = 0 && (decide (¬ y % 100 = 0) || decide (y % 400 = 0))

/-- daysInMonth is the month length used by Go's date validation. -/
def daysInMonth (y m : Int) : Int :=
  if m = 2 then (if isLeapYear y then 29 else 28)
  else if m = 4 ∨ m = 6 ∨ m = 9 ∨ m = 11 then 30
  else 31

/-- validDate captures which `YYYY-MM-DD` strings Go's
`time.Parse("2006-01-02", ·)` accepts: month 1..12 and day within the
month's length. -/
def validDate (y m d : Int) : Bool :=
  decide (1 ≤ m ∧ m ≤ 12 ∧ 1 ≤ d ∧ d ≤ daysInMonth y m)

/-- parseDate10 reads the three numeric fields of a ten-character
`YYYY-MM-DD` token and validates them as a real calendar date
(`time.Parse`); `none` models a parse error. -/
def parseDate10 (s : Str) : Option (Int × Int × Int) :=
  match s with
  | [a, b, c, d, _, f, g, _, i, j] =>
      let y : Int := digitsToNat [a, b, c, d]
      let m : Int := digitsToNat [f, g]
      let dd : Int := digitsToNat [i, j]
      if validDate y m dd then some (y, m, dd) else none
  | _ => none

/-- parseDay models the Go function `parseDay`: lowercase and trim the
input, then in order handle `today`, an explicit `YYYY-MM-DD` date, and a
weekday name optionally prefixed with `+` (next week, wrapping week 52 to
week 1 of the next year); anything else is an invalid-day error. -/
def parseDay (now : GoDate) (input0 : Str) : Except DayErr (Str × Str) :=
  let input := strToLower (trimSpace input0)
  if input = ("today").toList then
    let z := toDays now
    let yw := isoWeekOf z
    .ok (formatWeekKey yw.1 yw.2, weekdayName (goWeekday z))
  else if dateShape input then
    match parseDate10 input with
    | none => .error (.invalidDate input)
    | some (y, m, d) =>
        let z := daysFromCivil y m d
        let yw := isoWeekOf z
        .ok (formatWeekKey yw.1 yw.2, weekdayName (goWeekday z))
  else
    let pr : Bool × Str :=
      match input with
      | '+' :: rest => (true, rest)
      | _ => (false, input)
    let inp := pr.2
    if inp ∈ daysList then
      let yw := isoWeekOf (toDays now)
      let yw2 :=
        if pr.1 then
          (if 52 < yw.2 + 1 then (yw.1 + 1, (1 : Int)) else (yw.1, yw.2 + 1))
        else yw
      .ok (formatWeekKey yw2.1 yw2.2, inp)
    else .error (.invalidDay inp)

/-! ### Week navigation (`getWeek` and the serve handler) -/

/-- nextWeekKey is the `--next` / serve next-week arithmetic: increment the
week number, wrapping past 52 to week 1 of the next year. -/
def nextWeekKey (y w : Int) : Int × Int :=
  if 52 < w + 1 then (y + 1, 1) else (y, w + 1)

/-- prevWeekKey is the `--last` / serve previous-week arithmetic: decrement
the week number, wrapping below 1 to week 52 of the previous year. -/
def prevWeekKey (y w : Int) : Int × Int :=
  if w - 1 < 1 then (y - 1, 52) else (y, w - 1)

/-! ### Week arithmetic (`weekDateRange`, `dayDate`) -/

/-- firstMondayOfYear is the Monday anchor computation shared by
`weekDateRange` and `dayDate`: start from January 1 of the year, compute
`time.Monday - jan1.Weekday()`, and if that is positive subtract 7, so the
step is always backward (or zero) to a Monday. -/
def firstMondayOfYear (y : Int) : Int :=
  let jan1 := daysFromCivil y 1 1
  let dtm0 := 1 - goWeekday jan1
  let dtm := if 0 < dtm0 then dtm0 - 7 else dtm0
  jan1 + dtm

/-- mondayOfWeek is the Monday anchor of a parsed week key:
the year's first Monday plus `(weekNum - 1) * 7` days. -/
def mondayOfWeek (y w : Int) : Int := firstMondayOfYear y + (w - 1) * 7

/-- dayOffset is `dayDate`'s `dayOffsets` map (Monday = 0 … Sunday = 6;
a missing key reads as Go's zero value). -/
def dayOffset (day : Str) : Int :=
  if day = ("monday").toList then 0
  else if day = ("tuesday").toList then 1
  else if day = ("wednesday").toList then 2
  else if day = ("thursday").toList then 3
  else if day = ("friday").toList then 4
  else if day = ("saturday").toList then 5
  else if day = ("sunday").toList then 6
  else 0

/-- dayDateNum is `dayDate` up to date formatting: the day number of the
named weekday within the given week key. -/
def dayDateNum (y w : Int) (day : Str) : Int := mondayOfWeek y w + dayOffset day

/-- weekRangeNums is `weekDateRange` up to date formatting: the day numbers
of the Monday and the Sunday it renders. -/
def weekRangeNums (y w : Int) : Int × Int :=
  (mondayOfWeek y w, mondayOfWeek y w + 6)

/-! ### Tag extraction (`extractTags`) -/

/-- isWordChar models regexp `\w`: ASCII letters, digits and underscore. -/
def isWordChar (c : Char) : Bool :=
  (48 ≤ c.toNat && c.toNat ≤ 57) || (65 ≤ c.toNat && c.toNat ≤ 90) ||
  (97 ≤ c.toNat && c.toNat ≤ 122) || c.toNat = 95

/-- scanTagsAux scans the text once, returning the `#(\w+)` capture groups
in order of appearance together with the text with every match removed;
this models the leftmost-first matching shared by `FindAllStringSubmatch`
and `ReplaceAllString`. The first argument is structural fuel; each step
consumes at least one character, so `length + 1` units always suffice. -/
def scanTagsAux : Nat → Str → List Str × Str
  | 0, s => ([], s)
  | _ + 1, [] => ([], [])
  | fuel + 1, '#' :: rest =>
      let run := rest.takeWhile isWordChar
      if run.isEmpty then
        let p := scanTagsAux fuel rest
        (p.1, '#' :: p.2)
      else
        let p := scanTagsAux fuel (rest.dropWhile isWordChar)
        (run :: p.1, p.2)
  | fuel + 1, c :: rest =>
      let p := scanTagsAux fuel rest
      (p.1, c :: p.2)

/-- scanTags runs the hashtag scan over a whole string. -/
def scanTags (s : Str) : List Str × Str := scanTagsAux (s.length + 1) s

/-- dedupeAux is the `seen` map loop of `extractTags`: keep the first
occurrence of each tag, in order. -/
def dedupeAux (seen : List Str) : List Str → List Str
  | [] => []
  | t :: ts =>
      if t ∈ seen then dedupeAux seen ts
      else t :: dedupeAux (t :: seen) ts

/-- extractTagsList is the `uniqueTags` list `extractTags` builds: the
lowercased flag tag first (when nonempty), then the lowercased hashtags in
order of appearance, deduplicated keeping first occurrences. -/
def extractTagsList (desc flagTag : Str) : List Str :=
  let tagList :=
    (if flagTag ≠ [] then [strToLower flagTag] else []) ++
      ((scanTags desc).1).map strToLower
  dedupeAux [] tagList

/-- joinComma models `strings.Join · ","` (the empty join is the empty
string, matching the Go zero value kept when no tags exist). -/
def joinComma : List Str → Str
  | [] => []
  | [t] => t
  | t :: ts => t ++ ',' :: joinComma ts

/-- extractTags models the Go function `extractTags`: cleaned description
(hashtags stripped, then trimmed) and the comma-joined deduplicated tags. -/
def extractTags (desc flagTag : Str) : Str × Str :=
  (trimSpace (scanTags desc).2, joinComma (extractTagsList desc flagTag))

/-! ### Entries, ordering and rendering (`Block`, `cmdLs` query) -/

/-- Block models the `blocks` row / Go `Block` struct; `sql.NullString`
fields are `Option Str`, and `createdAt` is an abstract creation stamp
used only for ordering. -/
structure Block where
  id : Str
  week : Str
  day : Str
  description : Str
  plannedStart : Option Str := none
  plannedEnd : Option Str := none
  actualStart : Option Str := none
  actualEnd : Option Str := none
  isNote : Bool := false
  isUnplanned : Bool := false
  isDone : Bool := false
  tags : Option Str := none
  createdAt : Nat := 0
  deriving DecidableEq, Repr

/-- effStart is the CASE expression of the listing query's ORDER BY:
planned start if non-NULL, else actual start if non-NULL, else `99:99`. -/
def effStart (b : Block) : Str :=
  match b.plannedStart with
  | some s => s
  | none =>
      match b.actualStart with
      | some s => s
      | none => ("99:99").toList

/-- strLtB is strict byte-order (SQLite BINARY collation) comparison of
text values, on characters via their code points. -/
def strLtB : Str → Str → Bool
  | [], [] => false
  | [], _ :: _ => true
  | _ :: _, [] => false
  | a :: as, b :: bs =>
      if a.toNat < b.toNat then true
      else if a.toNat = b.toNat then strLtB as bs
      else false

/-- blockLe is the ORDER BY relation of the listing query: effective start
ascending (text order), then `created_at` ascending. -/
def blockLe (x y : Block) : Prop :=
  strLtB (effStart x) (effStart y) = true ∨
    (effStart x = effStart y ∧ x.createdAt ≤ y.createdAt)

instance : DecidableRel blockLe := fun x y => by
  unfold blockLe; infer_instance

/-- orderBlocks realizes the query's ORDER BY as a (stable) sort. -/
def orderBlocks (l : List Block) : List Block := List.insertionSort blockLe l

/-- lsDay is the listing query for one `(week, day)` bucket: filter the
store, then order by the ORDER BY relation. -/
def lsDay (store : List Block) (week day : Str) : List Block :=
  orderBlocks (store.filter (fun b => decide (b.week = week ∧ b.day = day)))

/-- statusMarker mirrors the sequential marker assignment in `cmdLs`:
start blank, overwrite with the done marker if `isDone`, then overwrite
with the unplanned marker if `isUnplanned`. -/
def statusMarker (b : Block) : Str :=
  let status := [' ']
  let status := if b.isDone then ['✓'] else status
  let status := if b.isUnplanned then ['⚡'] else status
  status

/-- mkUnplannedBlock is the row inserted by `wk actual --unplanned`:
actual times only, `is_unplanned = 1`, `is_done = 1`. -/
def mkUnplannedBlock (id week day desc start e tags : Str) (createdAt : Nat) : Block :=
  { id := id, week := week, day := day, description := desc,
    plannedStart := none, plannedEnd := none,
    actualStart := some start, actualEnd := some e,
    isNote := false, isUnplanned := true, isDone := true,
    tags := some tags, createdAt := createdAt }

/-! ### Store mutations (`cmdRm`, `cmdDone`, `cmdUndone`, `cmdActual`) -/

/-- StoreErr models the `Block not found: <id>` error path. -/
inductive StoreErr where
  | notFound (id : Str)
  deriving DecidableEq, Repr

/-- rowsMatching is `RowsAffected` for a `WHERE id = ?` statement: the
number of rows whose id matches. -/
def rowsMatching (store : List Block) (id : Str) : Nat :=
  (store.filter (fun b => decide (b.id = id))).length

/-- cmdRmOp models `wk rm`: DELETE FROM blocks WHERE id = ?, reporting
not-found when no row was affected. -/
def cmdRmOp (store : List Block) (id : Str) : List Block × Except StoreErr Unit :=
  let store' := store.filter (fun b => decide (¬ b.id = id))
  if rowsMatching store id = 0 then (store', .error (.notFound id))
  else (store', .ok ())

/-- cmdDoneOp models `wk done`: UPDATE blocks SET is_done = 1 WHERE id = ?. -/
def cmdDoneOp (store : List Block) (id : Str) : List Block × Except StoreErr Unit :=
  let store' := store.map (fun b => if b.id = id then { b with isDone := true } else b)
  if rowsMatching store id = 0 then (store', .error (.notFound id))
  else (store', .ok ())

/-- cmdUndoneOp models `wk undone`: UPDATE blocks SET is_done = 0 WHERE id = ?. -/
def cmdUndoneOp (store : List Block) (id : Str) : List Block × Except StoreErr Unit :=
  let store' := store.map (fun b => if b.id = id then { b with isDone := false } else b)
  if rowsMatching store id = 0 then (store', .error (.notFound id))
  else (store', .ok ())

/-- cmdActualOp models the update branch of `wk actual`:
UPDATE blocks SET actual_start = ?, actual_end = ? WHERE id = ?. -/
def cmdActualOp (store : List Block) (id start e : Str) :
    List Block × Except StoreErr Unit :=
  let store' := store.map (fun b =>
    if b.id = id then { b with actualStart := some start, actualEnd := some e } else b)
  if rowsMatching store id = 0 then (store', .error (.notFound id))
  else (store', .ok ())

/-! ### Spec-side notions used to state the claims -/

/-- realTimeStr captures what the spec's ordering sentence means by a
"real time": a canonical two-digit `HH:MM` clock string with hour ≤ 23
and minute ≤ 59. -/
def realTimeStr : Str → Bool
  | [h1, h2, c, m1, m2] =>
      isDigitChar h1 && isDigitChar h2 && (c = ':') && isDigitChar m1 && isDigitChar m2 &&
      decide (10 * digitVal h1 + digitVal h2 ≤ 23) &&
      decide (10 * digitVal m1 + digitVal m2 ≤ 59)
  | _ => false

/-- isMostRecentMondayOnOrBefore states the spec's anchor description for a
day number `m` relative to a day number `z`: `m` is a Monday, on or before
`z`, and within the same seven-day window (so no earlier Monday lies
between them). -/
def isMostRecentMondayOnOrBefore (m z : Int) : Prop :=
  goWeekday m = 1 ∧ m ≤ z ∧ z - m < 7

/-- specDedupFirst is the specification's reading of duplicate removal:
keep each first occurrence in place and drop every later duplicate. -/
def specDedupFirst : List Str → List Str
  | [] => []
  | x :: xs => x :: specDedupFirst (xs.filter (fun t => decide (¬ t = x)))
termination_by l => l.length
decreasing_by
  simp only [List.length_cons]
  exact Nat.lt_succ_of_le (List.length_filter_le _ _)

/-! ### Concrete example entries (the spec's ordering scenario) -/

/-- exPlanned9 is a planned block 09:00–10:00, created first. -/
def exPlanned9 : Block :=
  { id := ("p9").toList, week := ("2025-W07").toList, day := ("monday").toList,
    description := ("deep work").toList, plannedStart := some (("09:00").toList),
    plannedEnd := some (("10:00").toList), createdAt := 0 }

/-- exPlanned14 is a planned block 14:00–15:00, created second. -/
def exPlanned14 : Block :=
  { id := ("p14").toList, week := ("2025-W07").toList, day := ("monday").toList,
    description := ("sync").toList, plannedStart := some (("14:00").toList),
    plannedEnd := some (("15:00").toList), createdAt := 1 }

/-- exNote is a note with no time fields, created third. -/
def exNote : Block :=
  { id := ("n1").toList, week := ("2025-W07").toList, day := ("monday").toList,
    description := ("remember").toList, isNote := true, createdAt := 2 }

/-- exUnplanned is an unplanned block with actual start 08:00, created last. -/
def exUnplanned : Block :=
  { id := ("u8").toList, week := ("2025-W07").toList, day := ("monday").toList,
    description := ("firefight").toList, actualStart := some (("08:00").toList),
    actualEnd := some (("08:30").toList), isUnplanned := true, isDone := true,
    createdAt := 3 }

/-- exStored is a stored block used to exercise the not-found paths
against a nonempty store. -/
def exStored : Block :=
  { id := ("ab").toList, week := ("2025-W07").toList, day := ("friday").toList,
    description := ("review").toList, plannedStart := some (("11:00").toList),
    plannedEnd := some (("12:00").toList), createdAt := 5 }

/-! ### Helper lemmas -/

/-- char_toNat_inj: characters with equal code points are equal. -/
theorem char_toNat_inj {a b : Char} (h : a.toNat = b.toNat) : a = b :=
  Char.eq_of_val_eq (UInt32.ext h)

/-- splitOnAux_no_sep: a separator-free suffix produces a single field. -/
theorem splitOnAux_no_sep (sep : Char) :
    ∀ (s acc : Str), sep ∉ s → splitOnAux sep s acc = [acc.reverse ++ s]
  | [], acc, _ => by simp [splitOnAux]
  | c :: rest, acc, h => by
      have hc : ¬ c = sep := fun e => h (by simp [e])
      have hr : sep ∉ rest := fun hm => h (by simp [hm])
      simp [splitOnAux, hc, splitOnAux_no_sep sep rest (c :: acc) hr]

/-- splitOnAux_with_sep: splitting at the first separator occurrence. -/
theorem splitOnAux_with_sep (sep : Char) :
    ∀ (s1 s2 acc : Str), sep ∉ s1 →
      splitOnAux sep (s1 ++ sep :: s2) acc = (acc.reverse ++ s1) :: splitOnAux sep s2 []
  | [], s2, acc, _ => by simp [splitOnAux]
  | c :: rest, s2, acc, h => by
      have hc : ¬ c = sep := fun e => h (by simp [e])
      have hr : sep ∉ rest := fun hm => h (by simp [hm])
      simp [splitOnAux, hc, splitOnAux_with_sep sep rest s2 (c :: acc) hr]

/-- splitOnChar_pair: a string with exactly one separator splits into its
two separator-free sides. -/
theorem splitOnChar_pair (sep : Char) (s1 s2 : Str) (h1 : sep ∉ s1) (h2 : sep ∉ s2) :
    splitOnChar sep (s1 ++ sep :: s2) = [s1, s2] := by
  simp [splitOnChar, splitOnAux_with_sep sep s1 s2 [] h1, splitOnAux_no_sep sep s2 [] h2]

/-- trimSpace_of_ends: trimming is the identity when both ends are
non-whitespace. -/
theorem trimSpace_of_ends {s : Str} (h1 : ∀ c ∈ s.take 1, isSpaceChar c = false)
    (h2 : ∀ c ∈ s.reverse.take 1, isSpaceChar c = false) : trimSpace s = s := by
  unfold trimSpace
  cases s with
  | nil => simp
  | cons a rest =>
      have ha : isSpaceChar a = false := h1 a (by simp)
      rw [List.dropWhile_cons_of_neg (by simp [ha])]
      rcases hrev : (a :: rest).reverse with _ | ⟨z, zs⟩
      · simp at hrev
      · have hz : isSpaceChar z = false := by
          apply h2; rw [hrev]; simp
        rw [List.dropWhile_cons_of_neg (by simp [hz]), ← hrev,
          List.reverse_reverse]

/-- ne_of_digit_dash: a digit character is never the dash. -/
theorem ne_of_digit_dash {c : Char} (h : isDigitChar c = true) : ('-') ≠ c := by
  intro e; rw [← e] at h; revert h; decide

/-- notSpace_of_digit: a digit character is not whitespace. -/
theorem notSpace_of_digit {c : Char} (h : isDigitChar c = true) : isSpaceChar c = false := by
  simp [isDigitChar] at h
  simp [isSpaceChar]
  omega

/-- timeRegex_noDash: a clock-pattern match contains no dash, so splitting
on dashes cannot cut through it. -/
theorem timeRegex_noDash {s : Str} (h : timeRegexMatch s = true) : ('-') ∉ s := by
  unfold timeRegexMatch at h
  split at h
  · next h1 c m1 m2 =>
      simp only [Bool.and_eq_true, decide_eq_true_eq] at h
      obtain ⟨⟨⟨hd1, hc⟩, hd2⟩, hd3⟩ := h
      intro hm
      simp only [List.mem_cons, List.not_mem_nil, or_false] at hm
      rcases hm with e | e | e | e
      · exact ne_of_digit_dash hd1 e
      · rw [hc] at e; exact absurd e (by decide)
      · exact ne_of_digit_dash hd2 e
      · exact ne_of_digit_dash hd3 e
  · next h1 h2 c m1 m2 =>
      simp only [Bool.and_eq_true, decide_eq_true_eq] at h
      obtain ⟨⟨⟨⟨hd1, hd2⟩, hc⟩, hd3⟩, hd4⟩ := h
      intro hm
      simp only [List.mem_cons, List.not_mem_nil, or_false] at hm
      rcases hm with e | e | e | e | e
      · exact ne_of_digit_dash hd1 e
      · exact ne_of_digit_dash hd2 e
      · rw [hc] at e; exact absurd e (by decide)
      · exact ne_of_digit_dash hd3 e
      · exact ne_of_digit_dash hd4 e
  · simp at h

/-- timeRegex_trim: a clock-pattern match has no surrounding whitespace. -/
theorem timeRegex_trim {s : Str} (h : timeRegexMatch s = true) : trimSpace s = s := by
  unfold timeRegexMatch at h
  split at h
  · next h1 c m1 m2 =>
      simp only [Bool.and_eq_true, decide_eq_true_eq] at h
      obtain ⟨⟨⟨hd1, hc⟩, hd2⟩, hd3⟩ := h
      apply trimSpace_of_ends
      · intro x hx; simp at hx; rw [hx]; exact notSpace_of_digit hd1
      · intro x hx; simp at hx; rw [hx]; exact notSpace_of_digit hd3
  · next h1 h2 c m1 m2 =>
      simp only [Bool.and_eq_true, decide_eq_true_eq] at h
      obtain ⟨⟨⟨⟨hd1, hd2⟩, hc⟩, hd3⟩, hd4⟩ := h
      apply trimSpace_of_ends
      · intro x hx; simp at hx; rw [hx]; exact notSpace_of_digit hd1
      · intro x hx; simp at hx; rw [hx]; exact notSpace_of_digit hd4
  · simp at h

/-- parseTimeRange_ok: on a token of shape `part-part` with both parts
matching the clock pattern, the parser succeeds with zero-padded output. -/
theorem parseTimeRange_ok {s1 s2 : Str} (m1 : timeRegexMatch s1 = true)
    (m2 : timeRegexMatch s2 = true) :
    parseTimeRange (s1 ++ '-' :: s2) = .ok (padTime s1, padTime s2) := by
  unfold parseTimeRange
  rw [splitOnChar_pair '-' s1 s2 (timeRegex_noDash m1) (timeRegex_noDash m2)]
  simp [timeRegex_trim m1, timeRegex_trim m2, m1, m2]

/-- strLtB_trans: byte-order comparison is transitive. -/
theorem strLtB_trans : ∀ (a b c : Str), strLtB a b = true → strLtB b c = true →
    strLtB a c = true
  | [], [], _, h1, _ => by simp [strLtB] at h1
  | [], _ :: _, [], _, h2 => by simp [strLtB] at h2
  | [], _ :: _, _ :: _, _, _ => by simp [strLtB]
  | _ :: _, [], _, h1, _ => by simp [strLtB] at h1
  | _ :: _, _ :: _, [], _, h2 => by simp [strLtB] at h2
  | x :: xs, y :: ys, z :: zs, h1, h2 => by
      simp only [strLtB] at h1 h2 ⊢
      split_ifs at h1 h2 ⊢ with hxy hxy2 hyz hyz2 hxz hxz2 <;> try rfl
      all_goals try omega
      all_goals exact strLtB_trans xs ys zs h1 h2

/-- strLtB_total: byte-order comparison is trichotomous. -/
theorem strLtB_total : ∀ (a b : Str), strLtB a b = true ∨ a = b ∨ strLtB b a = true
  | [], [] => by simp [strLtB]
  | [], _ :: _ => by simp [strLtB]
  | _ :: _, [] => by simp [strLtB]
  | x :: xs, y :: ys => by
      rcases Nat.lt_trichotomy x.toNat y.toNat with h | h | h
      · left; simp [strLtB, h]
      · have hxy : x = y := char_toNat_inj h
        subst hxy
        rcases strLtB_total xs ys with h2 | h2 | h2
        · left; simp [strLtB, h2]
        · right; left; rw [h2]
        · right; right; simp [strLtB, h2]
      · right; right; simp [strLtB, h]

instance : IsTrans Block blockLe := ⟨by
  intro a b c h1 h2
  rcases h1 with h1 | ⟨e1, c1⟩
  · rcases h2 with h2 | ⟨e2, c2⟩
    · exact Or.inl (strLtB_trans _ _ _ h1 h2)
    · exact Or.inl (by rw [← e2]; exact h1)
  · rcases h2 with h2 | ⟨e2, c2⟩
    · exact Or.inl (by rw [e1]; exact h2)
    · exact Or.inr ⟨e1.trans e2, le_trans c1 c2⟩⟩

instance : IsTotal Block blockLe := ⟨by
  intro a b
  rcases strLtB_total (effStart a) (effStart b) with h | h | h
  · exact Or.inl (Or.inl h)
  · rcases Nat.le_total a.createdAt b.createdAt with hc | hc
    · exact Or.inl (Or.inr ⟨h, hc⟩)
    · exact Or.inr (Or.inr ⟨h.symm, hc⟩)
  · exact Or.inr (Or.inl h)⟩

/-- strLtB_head: a smaller first code point decides the comparison. -/
theorem strLtB_head {a b : Char} (as bs : Str) (h : a.toNat < b.toNat) :
    strLtB (a :: as) (b :: bs) = true := by simp [strLtB, h]

/-- sentinel_after_real: every real clock time sorts strictly before the
`99:99` sentinel in byte order. -/
theorem sentinel_after_real {s : Str} (h : realTimeStr s = true) :
    strLtB s (("99:99").toList) = true := by
  unfold realTimeStr at h
  split at h
  · next h1 h2 c m1 m2 =>
      simp only [Bool.and_eq_true, decide_eq_true_eq] at h
      obtain ⟨⟨⟨⟨⟨⟨hd1, hd2⟩, hc⟩, hd3⟩, hd4⟩, hh⟩, hm⟩ := h
      have hlt : h1.toNat < ('9').toNat := by
        simp only [isDigitChar, Bool.and_eq_true, decide_eq_true_eq] at hd1 hd2
        simp only [digitVal] at hh
        have e9 : ('9').toNat = 57 := by decide
        omega
      exact strLtB_head _ _ hlt
  · simp at h

/-- map_id_of_mem: a map whose function fixes every member is the identity. -/
theorem map_id_of_mem {α : Type} (f : α → α) :
    ∀ (l : List α), (∀ x ∈ l, f x = x) → l.map f = l
  | [], _ => rfl
  | x :: xs, h => by
      rw [List.map_cons, h x (by simp), map_id_of_mem f xs (fun y hy => h y (by simp [hy]))]

/-- lower_id_of_lt: lowercasing fixes characters below the uppercase range. -/
theorem lower_id_of_lt {c : Char} (h : c.toNat < 65) : toLowerChar c = c := by
  unfold toLowerChar
  rw [if_neg]
  omega

/-- dateShape_norm: a date-shaped token is already trimmed and lowercase. -/
theorem dateShape_norm {s : Str} (hs : dateShape s = true) :
    strToLower (trimSpace s) = s := by
  unfold dateShape at hs
  split at hs
  · next a b c d e f g h i j =>
      simp only [Bool.and_eq_true, decide_eq_true_eq] at hs
      obtain ⟨⟨⟨⟨⟨⟨⟨⟨⟨ha, hb⟩, hc⟩, hd⟩, he⟩, hf⟩, hg⟩, hh⟩, hi⟩, hj⟩ := hs
      have htrim : trimSpace [a, b, c, d, e, f, g, h, i, j] =
          [a, b, c, d, e, f, g, h, i, j] := by
        apply trimSpace_of_ends
        · intro x hx; simp at hx; rw [hx]; exact notSpace_of_digit ha
        · intro x hx; simp at hx; rw [hx]; exact notSpace_of_digit hj
      rw [htrim]
      unfold strToLower
      simp only [isDigitChar, Bool.and_eq_true, decide_eq_true_eq] at ha hb hc hd hf hg hi hj
      rw [List.map_cons, lower_id_of_lt (by omega)]
      rw [List.map_cons, lower_id_of_lt (by omega)]
      rw [List.map_cons, lower_id_of_lt (by omega)]
      rw [List.map_cons, lower_id_of_lt (by omega)]
      rw [List.map_cons, he, lower_id_of_lt (by decide)]
      rw [List.map_cons, lower_id_of_lt (by omega)]
      rw [List.map_cons, lower_id_of_lt (by omega)]
      rw [List.map_cons, hh, lower_id_of_lt (by decide)]
      rw [List.map_cons, lower_id_of_lt (by omega)]
      rw [List.map_cons, lower_id_of_lt (by omega)]
      rfl
  · simp at hs

/-- dateShape_ne_today: a date-shaped token is not the `today` literal. -/
theorem dateShape_ne_today {s : Str} (hs : dateShape s = true) :
    s ≠ ("today").toList := by
  intro e
  rw [e] at hs
  exact absurd hs (by decide)

/-- dedupeAux_spec: the `seen`-map dedup loop implements keep-the-first
duplicate removal (restricted to elements outside the accumulator). -/
theorem dedupeAux_spec : ∀ (l seen : List Str),
    dedupeAux seen l = specDedupFirst (l.filter (fun t => decide (¬ t ∈ seen)))
  | [], seen => by simp [dedupeAux, specDedupFirst]
  | t :: ts, seen => by
      by_cases h : t ∈ seen
      · rw [dedupeAux, if_pos h]
        rw [List.filter_cons_of_neg (by simp [h])]
        exact dedupeAux_spec ts seen
      · rw [dedupeAux, if_neg h]
        rw [List.filter_cons_of_pos (by simp [h])]
        rw [specDedupFirst]
        rw [List.filter_filter]
        rw [dedupeAux_spec ts (t :: seen)]
        congr 1
        apply congrArg specDedupFirst
        apply List.filter_congr
        intro x hx
        simp only [List.mem_cons, decide_not]
        by_cases h1 : x = t <;> by_cases h2 : x ∈ seen <;> simp [h1, h2]

/-! ### Claim theorems -/

/-- C1: for every (weekKey, day) bucket and every collection of stored
entries in it, the listing operation outputs exactly those entries
(a permutation of the bucket's filter), sorted by ascending effective
start time — plannedStart if present, else actualStart if present, else
the sentinel — with ascending creation timestamp as tie-break; the
sentinel sorts strictly after every real clock time; and on the spec's
example (planned 09:00 and 14:00, a note, an unplanned 08:00 entry) the
rendered order is unplanned, 09:00, 14:00, note. -/
theorem cmdLs_ordering :
    (∀ (store : List Block) (week day : Str),
        (lsDay store week day).Perm
          (store.filter (fun b => decide (b.week = week ∧ b.day = day))) ∧
        List.Sorted blockLe (lsDay store week day)) ∧
    (∀ s : Str, realTimeStr s = true → strLtB s (("99:99").toList) = true) ∧
    (lsDay [exPlanned9, exPlanned14, exNote, exUnplanned]
        (("2025-W07").toList) (("monday").toList)).map Block.id =
      [("u8").toList, ("p9").toList, ("p14").toList, ("n1").toList] := by
  refine ⟨fun store week day => ⟨?_, ?_⟩, fun s h => sentinel_after_real h, ?_⟩
  · exact List.perm_insertionSort blockLe _
  · exact List.sorted_insertionSort blockLe _
  · rfl

/-- Witness for C1 at the concrete real time 23:59. -/
theorem cmdLs_ordering_witness :
    realTimeStr (("23:59").toList) = true ∧
    strLtB (("23:59").toList) (("99:99").toList) = true :=
  ⟨by decide, cmdLs_ordering.2.1 (("23:59").toList) (by decide)⟩

/-- C2: for each of the seven weekday names `d` and any current date, the
resolver maps `d` to the current ISO week with day `d`, and `+d` to the
successor week key — increment the week number, and past 52 roll to week
1 of the following year — with the same day `d`. -/
theorem plusDay_nextWeek :
    ∀ (now : GoDate) (d : Str), d ∈ daysList →
      parseDay now d =
        .ok (formatWeekKey (isoWeekOf (toDays now)).1 (isoWeekOf (toDays now)).2, d) ∧
      parseDay now ('+' :: d) =
        .ok (formatWeekKey
              (nextWeekKey (isoWeekOf (toDays now)).1 (isoWeekOf (toDays now)).2).1
              (nextWeekKey (isoWeekOf (toDays now)).1 (isoWeekOf (toDays now)).2).2, d) := by
  intro now d hd
  fin_cases hd <;> exact ⟨rfl, rfl⟩

/-- Witness for C2: `+monday` from 2025-02-12 (week 2025-W07). -/
theorem plusDay_nextWeek_witness :
    ("monday").toList ∈ daysList ∧
    parseDay (GoDate.mk 2025 2 12) ('+' :: ("monday").toList) =
      .ok (formatWeekKey
            (nextWeekKey (isoWeekOf (toDays (GoDate.mk 2025 2 12))).1
              (isoWeekOf (toDays (GoDate.mk 2025 2 12))).2).1
            (nextWeekKey (isoWeekOf (toDays (GoDate.mk 2025 2 12))).1
              (isoWeekOf (toDays (GoDate.mk 2025 2 12))).2).2, ("monday").toList) :=
  ⟨by decide, (plusDay_nextWeek (GoDate.mk 2025 2 12) (("monday").toList) (by decide)).2⟩

/-- C3: for every week key (year, week number), the Monday anchor is the
most recent Monday on or before January 1 of that year (never a forward
step) plus `(weekNumber − 1) × 7` days, and the computed dates of monday
through sunday are seven consecutive day numbers. -/
theorem weekAnchor_consecutive :
    ∀ (y w : Int),
      isMostRecentMondayOnOrBefore (firstMondayOfYear y) (daysFromCivil y 1 1) ∧
      mondayOfWeek y w = firstMondayOfYear y + (w - 1) * 7 ∧
      dayDateNum y w (("monday").toList) = mondayOfWeek y w ∧
      dayDateNum y w (("tuesday").toList) = dayDateNum y w (("monday").toList) + 1 ∧
      dayDateNum y w (("wednesday").toList) = dayDateNum y w (("tuesday").toList) + 1 ∧
      dayDateNum y w (("thursday").toList) = dayDateNum y w (("wednesday").toList) + 1 ∧
      dayDateNum y w (("friday").toList) = dayDateNum y w (("thursday").toList) + 1 ∧
      dayDateNum y w (("saturday").toList) = dayDateNum y w (("friday").toList) + 1 ∧
      dayDateNum y w (("sunday").toList) = dayDateNum y w (("saturday").toList) + 1 := by
  intro y w
  have h0 : dayOffset (("monday").toList) = 0 := rfl
  have h1 : dayOffset (("tuesday").toList) = 1 := rfl
  have h2 : dayOffset (("wednesday").toList) = 2 := rfl
  have h3 : dayOffset (("thursday").toList) = 3 := rfl
  have h4 : dayOffset (("friday").toList) = 4 := rfl
  have h5 : dayOffset (("saturday").toList) = 5 := rfl
  have h6 : dayOffset (("sunday").toList) = 6 := rfl
  refine ⟨?_, rfl, ?_, ?_, ?_, ?_, ?_, ?_, ?_⟩
  · unfold isMostRecentMondayOnOrBefore firstMondayOfYear goWeekday
    simp only []
    omega
  all_goals simp only [dayDateNum, h0, h1, h2, h3, h4, h5, h6]
  all_goals omega

/-- C4 counterexample: on the token `-10:00` (empty left side, so the
split yields two parts, one empty), the parser reports the time-format
error, not the time-range error the claim requires. -/
theorem parseTimeRange_C4cx :
    parseTimeRange (("-10:00").toList) =
      .error (.invalidTimeFormat (("-10:00").toList)) ∧
    parseTimeRange (("-10:00").toList) ≠
      .error (.invalidTimeRange (("-10:00").toList)) := by
  refine ⟨rfl, fun h => ?_⟩
  have h2 : (Except.error (TimeErr.invalidTimeFormat (("-10:00").toList)) :
      Except TimeErr (Str × Str)) =
      Except.error (TimeErr.invalidTimeRange (("-10:00").toList)) := by
    rw [← h]
    exact rfl
  simp at h2

/-- C4 (amended): every token whose split on `-` does not yield exactly
two parts fails with the time-range error; emptiness of a part is not
checked at that stage — a token with an empty side such as `-10:00`
yields exactly two parts and fails with the time-format error instead. -/
theorem parseTimeRange_two_parts :
    (∀ s : Str, (splitOnChar '-' s).length ≠ 2 →
        parseTimeRange s = .error (.invalidTimeRange s)) ∧
    parseTimeRange (("-10:00").toList) =
      .error (.invalidTimeFormat (("-10:00").toList)) := by
  constructor
  · intro s h
    unfold parseTimeRange
    rcases hs : splitOnChar '-' s with _ | ⟨p0, _ | ⟨p1, _ | ⟨p2, rest⟩⟩⟩
    · rfl
    · rfl
    · exact absurd (by simp [hs]) h
    · rfl
  · rfl

/-- Witness for the amended C4: a token without any dash has one part. -/
theorem parseTimeRange_two_parts_witness :
    (splitOnChar '-' (("10:00").toList)).length ≠ 2 ∧
    parseTimeRange (("10:00").toList) =
      .error (.invalidTimeRange (("10:00").toList)) :=
  ⟨by decide, parseTimeRange_two_parts.1 (("10:00").toList) (by decide)⟩

/-- C5: every token whose two dash-separated parts match the clock
pattern parses successfully with single-digit hours zero-padded;
`9:00-10:00` and `09:05-10:00` yield the padded pairs, `25:00-26:00` is
accepted with no semantic hour/minute/order validation, and `9:5-10:00`
fails with the time-format error. -/
theorem parseTimeRange_accepts :
    (∀ s1 s2 : Str, timeRegexMatch s1 = true → timeRegexMatch s2 = true →
        parseTimeRange (s1 ++ '-' :: s2) = .ok (padTime s1, padTime s2)) ∧
    parseTimeRange (("9:00-10:00").toList) =
      .ok ((("09:00").toList), (("10:00").toList)) ∧
    parseTimeRange (("09:05-10:00").toList) =
      .ok ((("09:05").toList), (("10:00").toList)) ∧
    parseTimeRange (("25:00-26:00").toList) =
      .ok ((("25:00").toList), (("26:00").toList)) ∧
    parseTimeRange (("9:5-10:00").toList) =
      .error (.invalidTimeFormat (("9:5-10:00").toList)) :=
  ⟨fun _ _ m1 m2 => parseTimeRange_ok m1 m2, rfl, rfl, rfl, rfl⟩

/-- Witness for C5 at `9:00-10:00`. -/
theorem parseTimeRange_accepts_witness :
    timeRegexMatch (("9:00").toList) = true ∧
    timeRegexMatch (("10:00").toList) = true ∧
    parseTimeRange ((("9:00").toList) ++ '-' :: (("10:00").toList)) =
      .ok (padTime (("9:00").toList), padTime (("10:00").toList)) :=
  ⟨by decide, by decide,
    parseTimeRange_accepts.1 (("9:00").toList) (("10:00").toList) (by decide) (by decide)⟩

/-- C6: every `YYYY-MM-DD`-shaped token is resolved as a calendar date:
an impossible date yields the invalid-date error, a real date yields the
ISO week key and the weekday derived from the date; in particular
`2025-02-10` resolves to week 2025-W07, day monday, for any current
date, and `2025-02-32` is rejected. -/
theorem resolver_date :
    (∀ (now : GoDate) (s : Str), dateShape s = true → parseDate10 s = none →
        parseDay now s = .error (.invalidDate s)) ∧
    (∀ (now : GoDate) (s : Str) (y m d : Int), dateShape s = true →
        parseDate10 s = some (y, m, d) →
        parseDay now s =
          .ok (formatWeekKey (isoWeekOf (daysFromCivil y m d)).1
                (isoWeekOf (daysFromCivil y m d)).2,
              weekdayName (goWeekday (daysFromCivil y m d)))) ∧
    (∀ now : GoDate, parseDay now (("2025-02-10").toList) =
        .ok ((("2025-W07").toList), ("monday").toList)) ∧
    (∀ now : GoDate, parseDay now (("2025-02-32").toList) =
        .error (.invalidDate (("2025-02-32").toList))) := by
  refine ⟨?_, ?_, fun now => rfl, fun now => rfl⟩
  · intro now s hshape hnone
    simp only [parseDay, dateShape_norm hshape]
    rw [if_neg (dateShape_ne_today hshape), if_pos hshape, hnone]
  · intro now s y m d hshape hsome
    simp only [parseDay, dateShape_norm hshape]
    rw [if_neg (dateShape_ne_today hshape), if_pos hshape, hsome]

/-- Witness for C6 at the impossible date `2025-13-01`. -/
theorem resolver_date_witness :
    dateShape (("2025-13-01").toList) = true ∧
    parseDate10 (("2025-13-01").toList) = none ∧
    parseDay (GoDate.mk 2025 2 12) (("2025-13-01").toList) =
      .error (.invalidDate (("2025-13-01").toList)) :=
  ⟨by decide, by decide,
    resolver_date.1 (GoDate.mk 2025 2 12) (("2025-13-01").toList) (by decide) (by decide)⟩

/-- C7: the tag extractor's output list is the lowercased explicit tag
(when present) followed by the lowercased hashtags in order of
appearance, with duplicates removed keeping each first occurrence in
place; `TagExtractor("deep work #project #Project", "")` yields cleaned
text `deep work` with tags `[project]`, and `TagExtractor("sync",
"Acme")` yields tags `[acme]`. -/
theorem tags_rule :
    (∀ desc flag : Str, extractTagsList desc flag =
        specDedupFirst ((if flag ≠ [] then [strToLower flag] else []) ++
          ((scanTags desc).1).map strToLower)) ∧
    extractTags (("deep work #project #Project").toList) [] =
      ((("deep work").toList), (("project").toList)) ∧
    extractTagsList (("deep work #project #Project").toList) [] =
      [(("project").toList)] ∧
    extractTags (("sync").toList) (("Acme").toList) =
      ((("sync").toList), (("acme").toList)) ∧
    extractTagsList (("sync").toList) (("Acme").toList) = [(("acme").toList)] := by
  refine ⟨?_, rfl, rfl, rfl, rfl⟩
  intro desc flag
  unfold extractTagsList
  rw [dedupeAux_spec]
  congr 1
  rw [List.filter_eq_self]
  intro b hb
  simp

/-- C8: the rendered status marker is the unplanned marker whenever
`isUnplanned` (display precedence over the completion marker), else the
completion marker when `isDone`, else blank; and the unplanned-record
operation always creates its entry with both `isUnplanned` and `isDone`
set, rendering the unplanned marker. -/
theorem statusMarker_rule :
    (∀ b : Block, statusMarker b =
        (if b.isUnplanned then [('⚡')] else if b.isDone then [('✓')] else [(' ')])) ∧
    (∀ (id week day desc start e tags : Str) (createdAt : Nat),
        (mkUnplannedBlock id week day desc start e tags createdAt).isDone = true ∧
        (mkUnplannedBlock id week day desc start e tags createdAt).isUnplanned = true ∧
        statusMarker (mkUnplannedBlock id week day desc start e tags createdAt) =
          [('⚡')]) := by
  constructor
  · intro b
    unfold statusMarker
    by_cases h1 : b.isDone <;> by_cases h2 : b.isUnplanned <;> simp [h1, h2]
  · intro id week day desc start e tags createdAt
    exact ⟨rfl, rfl, rfl⟩

/-- C9: when no stored entry carries the requested ID, delete, done,
undone and actual-time recording all report not-found and leave the
store exactly as it was. -/
theorem notFound_no_mutation :
    ∀ (store : List Block) (id : Str), (∀ b ∈ store, b.id ≠ id) →
      cmdRmOp store id = (store, .error (.notFound id)) ∧
      cmdDoneOp store id = (store, .error (.notFound id)) ∧
      cmdUndoneOp store id = (store, .error (.notFound id)) ∧
      ∀ start e : Str, cmdActualOp store id start e = (store, .error (.notFound id)) := by
  intro store id h
  have hzero : rowsMatching store id = 0 := by
    unfold rowsMatching
    rw [List.length_eq_zero]
    rw [List.filter_eq_nil_iff]
    intro b hb
    simp [h b hb]
  have hfilter : store.filter (fun b => decide (¬ b.id = id)) = store := by
    rw [List.filter_eq_self]
    intro b hb
    simp [h b hb]
  have hmap1 : store.map (fun b => if b.id = id then { b with isDone := true } else b) =
      store :=
    map_id_of_mem _ store (fun b hb => by simp [h b hb])
  have hmap2 : store.map (fun b => if b.id = id then { b with isDone := false } else b) =
      store :=
    map_id_of_mem _ store (fun b hb => by simp [h b hb])
  refine ⟨?_, ?_, ?_, ?_⟩
  · unfold cmdRmOp; rw [if_pos hzero, hfilter]
  · unfold cmdDoneOp; rw [if_pos hzero, hmap1]
  · unfold cmdUndoneOp; rw [if_pos hzero, hmap2]
  · intro start e
    unfold cmdActualOp
    rw [if_pos hzero,
      map_id_of_mem _ store (fun b hb => by simp [h b hb])]

/-- Witness for C9: deleting the absent id `zz` from a one-entry store. -/
theorem notFound_no_mutation_witness :
    (∀ b ∈ [exStored], b.id ≠ ("zz").toList) ∧
    cmdRmOp [exStored] (("zz").toList) =
      ([exStored], .error (.notFound (("zz").toList))) :=
  ⟨by decide, (notFound_no_mutation [exStored] (("zz").toList) (by decide)).1⟩

/-- C10: the resolver derives week keys by ISO-8601 week numbering, so a
date token's key can carry a different year (`2024-12-30` resolves to
2025-W01) or week 53 (`2026-12-28` resolves to 2026-W53), even though
the next/previous-week arithmetic starting from any week number in the
ISOWeek range 1..53 never produces a week-53 key. -/
theorem isoWeek_cross_year :
    (∀ now : GoDate, parseDay now (("2024-12-30").toList) =
        .ok ((("2025-W01").toList), ("monday").toList)) ∧
    (∀ now : GoDate, parseDay now (("2026-12-28").toList) =
        .ok ((("2026-W53").toList), ("monday").toList)) ∧
    (∀ y w : Int, 1 ≤ w → w ≤ 53 →
        (nextWeekKey y w).2 ≠ 53 ∧ (prevWeekKey y w).2 ≠ 53) := by
  refine ⟨fun now => rfl, fun now => rfl, ?_⟩
  intro y w hlo hhi
  unfold nextWeekKey prevWeekKey
  constructor
  · split
    · simp
    · simp; omega
  · split
    · simp
    · simp; omega

/-- Witness for C10 at week 52 of 2025. -/
theorem isoWeek_cross_year_witness :
    (1 : Int) ≤ 52 ∧ (52 : Int) ≤ 53 ∧
    (nextWeekKey 2025 52).2 ≠ 53 ∧ (prevWeekKey 2025 52).2 ≠ 53 :=
  ⟨by decide, by decide, isoWeek_cross_year.2.2 2025 52 (by decide) (by decide)⟩

end Wk
